import Mathlib

/-!
Verification of the `xmatch` structural expression matcher.

A shallow embedding of `src/xmatch.py`: an expression parser for the
arithmetic fragment handled by the matcher (identifiers, natural-number
literals, `+ - * / **`, parentheses), a renderer mirroring `ast.unparse`,
and the two stack-driven matching functions `shallow_match` and
`deep_match`, each parameterized by the `power_as_atomic` flag.

The traversal is additionally parameterized by a Boolean `ord` choosing
the order in which sibling pairs are pushed onto the work list
(`ord = false` is the order of the Python source, which visits the left
pair first; `ord = true` visits the right pair first), so that claims
about sibling-order independence can be stated as an equality between
the two instantiations.
-/

namespace XMatch

/-- Binary operator kinds produced by the parser; mirrors the subset of
`ast.operator` subclasses (`Add`, `Sub`, `Mult`, `Div`, `Pow`) that the
arithmetic fragment uses.  Python's `type(op_x) is type(op_y)` test is
equality of this type. -/
inductive Op where
  | add | sub | mul | div | pow
  deriving DecidableEq, Repr

/-- Expression trees, mirroring the `ast` nodes the matcher inspects:
`binOp` is `ast.BinOp`, `name` is `ast.Name` (an identifier leaf), and
`const` is a numeric `ast.Constant`. -/
inductive Expr where
  | binOp (op : Op) (left right : Expr)
  | name (id : String)
  | const (value : Nat)
  deriving DecidableEq, Repr

namespace Expr

/-- Number of nodes of an expression tree; used as the termination
measure of the matcher's work-list loop. -/
def size : Expr → Nat
  | .binOp _ l r => l.size + r.size + 1
  | .name _ => 1
  | .const _ => 1

theorem size_pos (e : Expr) : 0 < e.size := by
  cases e <;> simp [size]

end Expr

/-- Operator precedence as used by CPython's `ast._Unparser`
(`ARITH < TERM < POWER`); only the relative order matters. -/
def Op.prec : Op → Nat
  | .add => 1
  | .sub => 1
  | .mul => 2
  | .div => 2
  | .pow => 4

/-- Surface syntax of each operator, as `ast.unparse` prints it. -/
def Op.sym : Op → String
  | .add => "+"
  | .sub => "-"
  | .mul => "*"
  | .div => "/"
  | .pow => "**"

/-- Renderer: `unparseP e req` renders `e`, parenthesizing when the operator's
precedence is below the precedence `req` required by the context;
mirrors `ast._Unparser.visit_BinOp` (with `**` right-associative and
every other operator left-associative). -/
def unparseP : Expr → Nat → String
  | .name s, _ => s
  | .const n, _ => toString n
  | .binOp op l r, req =>
    let p := op.prec
    let s := unparseP l (if op = .pow then p + 1 else p) ++ " " ++ op.sym ++ " "
      ++ unparseP r (if op = .pow then p else p + 1)
    if p < req then "(" ++ s ++ ")" else s

/-- The model of `ast.unparse`: canonical re-serialization of a tree, e.g. a power
node prints as `"a ** 2"`. -/
def unparse (e : Expr) : String := unparseP e 0

/-! Tokenizer and parser.

The Python source calls `ast.parse(expr, mode="eval")` and catches
`SyntaxError`; here `parse` returns `none` on malformed input.  The
grammar is the arithmetic-expression fragment the matcher operates on:

    expr   := term (('+' | '-') term)*
    term   := factor (('*' | '/') factor)*
    factor := atom ('**' factor)?
    atom   := identifier | natural literal | '(' expr ')'
-/

/-- Lexical tokens of the arithmetic fragment. -/
inductive Tok where
  | ident (s : String)
  | num (n : Nat)
  | plus | minus | star | slash | dstar | lparen | rparen
  deriving DecidableEq, Repr

/-- First character of an identifier (Python: letter or underscore). -/
def isIdentStart (c : Char) : Bool := c.isAlpha || c = '_'

/-- Subsequent character of an identifier. -/
def isIdentChar (c : Char) : Bool := c.isAlphanum || c = '_'

/-- Digit string to numeric value. -/
def digitsToNat (cs : List Char) : Nat :=
  cs.foldl (fun a c => a * 10 + (c.toNat - '0'.toNat)) 0

/-- Fuel-driven tokenizer loop; each step consumes at least one
character and one unit of fuel, so fuel equal to the input length is
always sufficient. -/
def tokenizeF : Nat → List Char → Option (List Tok)
  | _, [] => some []
  | 0, _ :: _ => none
  | fuel + 1, c :: cs =>
    if c = ' ' then tokenizeF fuel cs
    else if c = '+' then (tokenizeF fuel cs).map (Tok.plus :: ·)
    else if c = '-' then (tokenizeF fuel cs).map (Tok.minus :: ·)
    else if c = '/' then (tokenizeF fuel cs).map (Tok.slash :: ·)
    else if c = '(' then (tokenizeF fuel cs).map (Tok.lparen :: ·)
    else if c = ')' then (tokenizeF fuel cs).map (Tok.rparen :: ·)
    else if c = '*' then
      match cs with
      | '*' :: cs' => (tokenizeF fuel cs').map (Tok.dstar :: ·)
      | _ => (tokenizeF fuel cs).map (Tok.star :: ·)
    else if isIdentStart c then
      (tokenizeF fuel (cs.dropWhile isIdentChar)).map
        (Tok.ident (String.mk (c :: cs.takeWhile isIdentChar)) :: ·)
    else if c.isDigit then
      (tokenizeF fuel (cs.dropWhile Char.isDigit)).map
        (Tok.num (digitsToNat (c :: cs.takeWhile Char.isDigit)) :: ·)
    else none

/-- Tokenize a character list; `none` on any character outside the
fragment's lexical alphabet. -/
def tokenize (cs : List Char) : Option (List Tok) := tokenizeF cs.length cs

mutual

/-- Parse an additive expression (`term (('+'|'-') term)*`).  `fuel`
bounds the recursion depth; every call below passes strictly smaller
fuel, and `parse` supplies enough fuel for any token list. -/
def parseE (fuel : Nat) (ts : List Tok) : Option (Expr × List Tok) :=
  match fuel with
  | 0 => none
  | f + 1 => (parseT f ts).bind fun (l, ts1) => parseEL f l ts1

/-- Left-associative loop over `+`/`-` at the additive level. -/
def parseEL (fuel : Nat) (acc : Expr) (ts : List Tok) : Option (Expr × List Tok) :=
  match fuel with
  | 0 => none
  | f + 1 =>
    match ts with
    | Tok.plus :: ts1 =>
      (parseT f ts1).bind fun (r, ts2) => parseEL f (.binOp .add acc r) ts2
    | Tok.minus :: ts1 =>
      (parseT f ts1).bind fun (r, ts2) => parseEL f (.binOp .sub acc r) ts2
    | _ => some (acc, ts)

/-- Parse a multiplicative term (`factor (('*'|'/') factor)*`). -/
def parseT (fuel : Nat) (ts : List Tok) : Option (Expr × List Tok) :=
  match fuel with
  | 0 => none
  | f + 1 => (parseF f ts).bind fun (l, ts1) => parseTL f l ts1

/-- Left-associative loop over `*`/`/` at the multiplicative level. -/
def parseTL (fuel : Nat) (acc : Expr) (ts : List Tok) : Option (Expr × List Tok) :=
  match fuel with
  | 0 => none
  | f + 1 =>
    match ts with
    | Tok.star :: ts1 =>
      (parseF f ts1).bind fun (r, ts2) => parseTL f (.binOp .mul acc r) ts2
    | Tok.slash :: ts1 =>
      (parseF f ts1).bind fun (r, ts2) => parseTL f (.binOp .div acc r) ts2
    | _ => some (acc, ts)

/-- Parse a power factor (`atom ('**' factor)?`, right-associative). -/
def parseF (fuel : Nat) (ts : List Tok) : Option (Expr × List Tok) :=
  match fuel with
  | 0 => none
  | f + 1 =>
    (parseA f ts).bind fun (b, ts1) =>
      match ts1 with
      | Tok.dstar :: ts2 =>
        (parseF f ts2).map fun (e, ts3) => (.binOp .pow b e, ts3)
      | _ => some (b, ts1)

/-- Parse an atom: identifier, literal, or parenthesized expression. -/
def parseA (fuel : Nat) (ts : List Tok) : Option (Expr × List Tok) :=
  match fuel with
  | 0 => none
  | f + 1 =>
    match ts with
    | Tok.ident s :: ts1 => some (.name s, ts1)
    | Tok.num n :: ts1 => some (.const n, ts1)
    | Tok.lparen :: ts1 =>
      (parseE f ts1).bind fun (e, ts2) =>
        match ts2 with
        | Tok.rparen :: ts3 => some (e, ts3)
        | _ => none
    | _ => none

end

/-- The model of `ast.parse(s, mode="eval").body` for the arithmetic fragment:
`none` models the `SyntaxError` path of the Python source. -/
def parse (s : String) : Option Expr :=
  (tokenize s.toList).bind fun ts =>
    (parseE (2 * ts.length + 2) ts).bind fun (e, rest) =>
      if rest = [] then some e else none

/-! The structural matcher. -/

/-- The two matching policies: `shallow` is `shallow_match`'s treatment
of matched power nodes, `deep` is `deep_match`'s. -/
inductive Policy where
  | shallow | deep
  deriving DecidableEq, Repr

/-- Python's `isinstance(x, ast.Constant) and isinstance(y, ast.Constant)
and x.value == y.value`. -/
def constPair : Expr → Expr → Bool
  | .const a, .const b => a == b
  | _, _ => false

/-- Termination weight of one work-list entry. -/
def pairSize (p : Expr × Expr) : Nat := p.1.size + p.2.size

/-- Termination weight of the whole work list. -/
def stackWeight (st : List (Expr × Expr)) : Nat := (st.map pairSize).sum

/-- The two child pairs of a matched `BinOp` pair, in the order they are
pushed onto the work list.  `ord = false` is the Python source's
`stack.extend([(x.right, y.right), (x.left, y.left)])` followed by
popping from the end, i.e. the left pair is visited first; `ord = true`
is the opposite sibling order. -/
def pushPairs (ord : Bool) (a b : Expr × Expr) : List (Expr × Expr) :=
  if ord then [b, a] else [a, b]

theorem stackWeight_cons (p : Expr × Expr) (st : List (Expr × Expr)) :
    stackWeight (p :: st) = pairSize p + stackWeight st := by
  simp [stackWeight]

theorem stackWeight_pushPairs (ord : Bool) (a b : Expr × Expr)
    (st : List (Expr × Expr)) :
    stackWeight (pushPairs ord a b ++ st) = pairSize a + pairSize b + stackWeight st := by
  cases ord <;> simp [pushPairs, stackWeight] <;> ring

/-- The work-list loop shared by both matching functions
(`while stack: ...` in the Python source), with the sibling push order
made explicit through `ord`.  A returned `∅` covers both the
"operator-set mismatch" abort (`return set()`) and an empty accumulated
result. -/
def matchLoopO (ord : Bool) (pol : Policy) (paa : Bool) :
    List (Expr × Expr) → Finset (String × String) → Finset (String × String)
  | [], results => results
  | (x, y) :: rest, results =>
    match x, y with
    | .binOp opx xl xr, .binOp opy yl yr =>
      if opx ≠ opy then
        if (opx ≠ .pow ∧ opy ≠ .pow) ∨ paa = false then ∅
        else matchLoopO ord pol paa rest (insert (unparse x, unparse y) results)
      else
        if opx = .pow then
          match pol with
          | .shallow =>
            if paa then
              matchLoopO ord pol paa rest (insert (unparse x, unparse y) results)
            else
              matchLoopO ord pol paa (pushPairs ord (xl, yl) (xr, yr) ++ rest) results
          | .deep =>
            if paa then
              if opy ≠ .pow then
                matchLoopO ord pol paa rest (insert (unparse x, unparse y) results)
              else
                if unparse xl = unparse yl then
                  if unparse xr ≠ unparse yr ∧ (unparse xr, unparse yr) ∉ results then
                    matchLoopO ord pol paa rest (insert (unparse xr, unparse yr) results)
                  else
                    matchLoopO ord pol paa rest results
                else
                  if unparse xr = unparse yr ∧ (unparse xl, unparse yl) ∉ results then
                    matchLoopO ord pol paa rest (insert (unparse xl, unparse yl) results)
                  else
                    matchLoopO ord pol paa rest (insert (unparse x, unparse y) results)
            else
              matchLoopO ord pol paa (pushPairs ord (xl, yl) (xr, yr) ++ rest) results
        else
          matchLoopO ord pol paa (pushPairs ord (xl, yl) (xr, yr) ++ rest) results
    | _, _ =>
      if constPair x y = true ∧ results ≠ ∅ then
        matchLoopO ord pol paa rest results
      else
        matchLoopO ord pol paa rest (insert (unparse x, unparse y) results)
termination_by st _ => stackWeight st
decreasing_by
  all_goals simp only [stackWeight_pushPairs, stackWeight_cons, pairSize, Expr.size]
  all_goals (try omega)
  all_goals rename_i u v w
  all_goals have hu := Expr.size_pos u
  all_goals have hv := Expr.size_pos v
  all_goals omega

/-- The traversal of the Python source: left sibling pair first. -/
def matchLoop (pol : Policy) (paa : Bool) (st : List (Expr × Expr))
    (results : Finset (String × String)) : Finset (String × String) :=
  matchLoopO false pol paa st results

/-- The full matching function: parse both strings (returning `∅` when
either fails), handle non-`BinOp` roots and root operator mismatch, then
run the work-list loop seeded with the root pair.  Mirrors lines 23–67
(and identically 86–143) of `src/xmatch.py`. -/
def runMatchO (ord : Bool) (pol : Policy) (e1 e2 : String) (paa : Bool) :
    Finset (String × String) :=
  match parse e1, parse e2 with
  | some t1, some t2 =>
    match t1, t2 with
    | .binOp op1 _ _, .binOp op2 _ _ =>
      if op1 ≠ op2 then
        if paa then
          if op1 = .pow ∨ op2 = .pow then {(e1, e2)}
          else matchLoopO ord pol paa [(t1, t2)] ∅
        else ∅
      else matchLoopO ord pol paa [(t1, t2)] ∅
    | _, _ => {(e1, e2)}
  | _, _ => ∅

/-- The function `shallow_match(expr1, expr2, power_as_atomic)` of `src/xmatch.py`. -/
def shallow_match (e1 e2 : String) (paa : Bool) : Finset (String × String) :=
  runMatchO false .shallow e1 e2 paa

/-- The function `deep_match(expr1, expr2, power_as_atomic)` of `src/xmatch.py`. -/
def deep_match (e1 e2 : String) (paa : Bool) : Finset (String × String) :=
  runMatchO false .deep e1 e2 paa

/-- Variant of `shallow_match` with the sibling pairs visited in the
opposite order (right child pair before left child pair). -/
def shallow_match_rev (e1 e2 : String) (paa : Bool) : Finset (String × String) :=
  runMatchO true .shallow e1 e2 paa

/-- Variant of `deep_match` with the sibling pairs visited in the
opposite order. -/
def deep_match_rev (e1 e2 : String) (paa : Bool) : Finset (String × String) :=
  runMatchO true .deep e1 e2 paa

/-! Analysis of the traversal.

`hasFatal` and `gatherSet` give a recursive characterization of the
work-list loop: a pair reachable by the traversal's descent rules either
triggers the `return set()` abort somewhere below (`hasFatal`), or
contributes the pairs `gatherSet` collects.  The characterization is
exact on pairs that are `safePair`: pairs none of whose reachable
sub-pairs consult the accumulated result set (the constant-skip rule and
the base-pair dedup corner of the deep power policy are the only two
rules that do). -/

/-- Python's `isinstance(t, ast.BinOp)`. -/
def Expr.isBinOp : Expr → Bool
  | .binOp _ _ _ => true
  | _ => false

/-- Whether the traversal rooted at this pair reaches an operator
mismatch that aborts the whole match (`return set()`).  The abort
condition and the descent rules are the same for both policies. -/
def hasFatal (paa : Bool) : Expr → Expr → Bool
  | .binOp opx xl xr, .binOp opy yl yr =>
    if opx ≠ opy then decide ((opx ≠ .pow ∧ opy ≠ .pow) ∨ paa = false)
    else if opx = .pow ∧ paa = true then false
    else hasFatal paa xl yl || hasFatal paa xr yr
  | _, _ => false

/-- The set of pairs the traversal rooted at this pair emits, assuming
no abort and no consultation of the accumulated result set. -/
def gatherSet (pol : Policy) (paa : Bool) : Expr → Expr → Finset (String × String)
  | .binOp opx xl xr, .binOp opy yl yr =>
    if opx ≠ opy then
      if (opx ≠ .pow ∧ opy ≠ .pow) ∨ paa = false then ∅
      else {(unparse (.binOp opx xl xr), unparse (.binOp opy yl yr))}
    else if opx = .pow then
      match pol with
      | .shallow =>
        if paa then {(unparse (.binOp opx xl xr), unparse (.binOp opy yl yr))}
        else gatherSet pol paa xl yl ∪ gatherSet pol paa xr yr
      | .deep =>
        if paa then
          if opy ≠ .pow then {(unparse (.binOp opx xl xr), unparse (.binOp opy yl yr))}
          else if unparse xl = unparse yl then
            if unparse xr = unparse yr then ∅ else {(unparse xr, unparse yr)}
          else
            if unparse xr = unparse yr then {(unparse xl, unparse yl)}
            else {(unparse (.binOp opx xl xr), unparse (.binOp opy yl yr))}
        else gatherSet pol paa xl yl ∪ gatherSet pol paa xr yr
    else gatherSet pol paa xl yl ∪ gatherSet pol paa xr yr
  | x, y => {(unparse x, unparse y)}

/-- No pair reachable from this one consults the accumulated result set:
excludes equal-valued constant pairs (the constant-skip rule) and, for
the deep policy with `power_as_atomic`, power pairs whose bases render
differently while the exponents render equal (the branch whose outcome
depends on whether the base pair is already present). -/
def safePair (pol : Policy) (paa : Bool) : Expr → Expr → Bool
  | .binOp opx xl xr, .binOp opy yl yr =>
    if opx ≠ opy then true
    else if opx = .pow ∧ paa = true then
      match pol with
      | .shallow => true
      | .deep => !(decide (unparse xl ≠ unparse yl ∧ unparse xr = unparse yr))
    else safePair pol paa xl yl && safePair pol paa xr yr
  | x, y => !(constPair x y)

/-- Union of `gatherSet` over a work list. -/
def stackGather (pol : Policy) (paa : Bool) (st : List (Expr × Expr)) :
    Finset (String × String) :=
  (st.map fun p => gatherSet pol paa p.1 p.2).foldr (· ∪ ·) ∅

theorem stackGather_nil (pol : Policy) (paa : Bool) :
    stackGather pol paa [] = ∅ := rfl

theorem stackGather_cons (pol : Policy) (paa : Bool) (p : Expr × Expr)
    (st : List (Expr × Expr)) :
    stackGather pol paa (p :: st) = gatherSet pol paa p.1 p.2 ∪ stackGather pol paa st := rfl

theorem stackGather_append (pol : Policy) (paa : Bool) (s t : List (Expr × Expr)) :
    stackGather pol paa (s ++ t) = stackGather pol paa s ∪ stackGather pol paa t := by
  induction s with
  | nil => simp [stackGather_nil, stackGather]
  | cons p s ih =>
    rw [List.cons_append, stackGather_cons, stackGather_cons, ih, Finset.union_assoc]

theorem stackGather_pushPairs (pol : Policy) (paa : Bool) (ord : Bool)
    (a b : Expr × Expr) (st : List (Expr × Expr)) :
    stackGather pol paa (pushPairs ord a b ++ st)
      = gatherSet pol paa a.1 a.2 ∪ gatherSet pol paa b.1 b.2 ∪ stackGather pol paa st := by
  cases ord <;>
    simp only [pushPairs, Bool.false_eq_true, if_false, if_true, List.cons_append,
      List.nil_append, stackGather_cons] <;>
    rw [← Finset.union_assoc]
  rw [Finset.union_comm (gatherSet pol paa b.1 b.2)]

/-! Single-step characterizations of the loop. -/

theorem not_both_binOp {x y : Expr}
    (h : ∀ (opx : Op) (xl xr : Expr) (opy : Op) (yl yr : Expr),
      x = Expr.binOp opx xl xr → y = Expr.binOp opy yl yr → False) :
    x.isBinOp = false ∨ y.isBinOp = false := by
  cases x <;> cases y <;> simp [Expr.isBinOp]
  exact h _ _ _ _ _ _ rfl rfl

theorem hasFatal_leaf {x y : Expr} (paa : Bool)
    (h : x.isBinOp = false ∨ y.isBinOp = false) : hasFatal paa x y = false := by
  cases x <;> cases y <;> first
    | rfl
    | simp [Expr.isBinOp] at h

theorem gatherSet_leaf {x y : Expr} (pol : Policy) (paa : Bool)
    (h : x.isBinOp = false ∨ y.isBinOp = false) :
    gatherSet pol paa x y = {(unparse x, unparse y)} := by
  cases x <;> cases y <;> first
    | rfl
    | simp [Expr.isBinOp] at h

theorem safePair_leaf {x y : Expr} (pol : Policy) (paa : Bool)
    (h : x.isBinOp = false ∨ y.isBinOp = false) :
    safePair pol paa x y = !(constPair x y) := by
  cases x <;> cases y <;> first
    | rfl
    | simp [Expr.isBinOp] at h

theorem step_mismatch_fatal (ord : Bool) (pol : Policy) (paa : Bool)
    (opx opy : Op) (xl xr yl yr : Expr) (rest : List (Expr × Expr))
    (r : Finset (String × String)) (hne : opx ≠ opy)
    (hfat : (opx ≠ .pow ∧ opy ≠ .pow) ∨ paa = false) :
    matchLoopO ord pol paa ((.binOp opx xl xr, .binOp opy yl yr) :: rest) r = ∅ := by
  cases pol
  · rw [matchLoopO.eq_2, if_pos hne, if_pos hfat]
  · rw [matchLoopO.eq_3, if_pos hne, if_pos hfat]

theorem step_mismatch_atomic (ord : Bool) (pol : Policy) (paa : Bool)
    (opx opy : Op) (xl xr yl yr : Expr) (rest : List (Expr × Expr))
    (r : Finset (String × String)) (hne : opx ≠ opy)
    (hnf : ¬((opx ≠ .pow ∧ opy ≠ .pow) ∨ paa = false)) :
    matchLoopO ord pol paa ((.binOp opx xl xr, .binOp opy yl yr) :: rest) r
      = matchLoopO ord pol paa rest
          (insert (unparse (.binOp opx xl xr), unparse (.binOp opy yl yr)) r) := by
  cases pol
  · rw [matchLoopO.eq_2, if_pos hne, if_neg hnf]
  · rw [matchLoopO.eq_3, if_pos hne, if_neg hnf]

theorem step_descend (ord : Bool) (pol : Policy) (paa : Bool)
    (opx : Op) (xl xr yl yr : Expr) (rest : List (Expr × Expr))
    (r : Finset (String × String)) (hnp : opx ≠ .pow) :
    matchLoopO ord pol paa ((.binOp opx xl xr, .binOp opx yl yr) :: rest) r
      = matchLoopO ord pol paa (pushPairs ord (xl, yl) (xr, yr) ++ rest) r := by
  cases pol
  · rw [matchLoopO.eq_2]; simp [hnp]
  · rw [matchLoopO.eq_3]; simp [hnp]

theorem step_pow_noatomic (ord : Bool) (pol : Policy)
    (xl xr yl yr : Expr) (rest : List (Expr × Expr))
    (r : Finset (String × String)) :
    matchLoopO ord pol false ((.binOp .pow xl xr, .binOp .pow yl yr) :: rest) r
      = matchLoopO ord pol false (pushPairs ord (xl, yl) (xr, yr) ++ rest) r := by
  cases pol
  · rw [matchLoopO.eq_2]; simp
  · rw [matchLoopO.eq_3]; simp

theorem step_pow_shallow (ord : Bool)
    (xl xr yl yr : Expr) (rest : List (Expr × Expr))
    (r : Finset (String × String)) :
    matchLoopO ord .shallow true ((.binOp .pow xl xr, .binOp .pow yl yr) :: rest) r
      = matchLoopO ord .shallow true rest
          (insert (unparse (.binOp .pow xl xr), unparse (.binOp .pow yl yr)) r) := by
  rw [matchLoopO.eq_2]; simp

theorem step_pow_deep (ord : Bool)
    (xl xr yl yr : Expr) (rest : List (Expr × Expr))
    (r : Finset (String × String)) :
    matchLoopO ord .deep true ((.binOp .pow xl xr, .binOp .pow yl yr) :: rest) r
      = if unparse xl = unparse yl then
          if unparse xr ≠ unparse yr ∧ (unparse xr, unparse yr) ∉ r then
            matchLoopO ord .deep true rest (insert (unparse xr, unparse yr) r)
          else matchLoopO ord .deep true rest r
        else
          if unparse xr = unparse yr ∧ (unparse xl, unparse yl) ∉ r then
            matchLoopO ord .deep true rest (insert (unparse xl, unparse yl) r)
          else
            matchLoopO ord .deep true rest
              (insert (unparse (.binOp .pow xl xr), unparse (.binOp .pow yl yr)) r) := by
  rw [matchLoopO.eq_3]; simp

theorem step_leaf (ord : Bool) (pol : Policy) (paa : Bool)
    (x y : Expr) (rest : List (Expr × Expr)) (r : Finset (String × String))
    (h : x.isBinOp = false ∨ y.isBinOp = false) :
    matchLoopO ord pol paa ((x, y) :: rest) r
      = if constPair x y = true ∧ r ≠ ∅ then matchLoopO ord pol paa rest r
        else matchLoopO ord pol paa rest (insert (unparse x, unparse y) r) := by
  apply matchLoopO.eq_4
  intro opx xl xr opy yl yr hx hy
  subst hx; subst hy
  simp [Expr.isBinOp] at h

theorem mem_pushPairs_left (ord : Bool) (a b : Expr × Expr) :
    a ∈ pushPairs ord a b := by
  cases ord <;> simp [pushPairs]

theorem mem_pushPairs_right (ord : Bool) (a b : Expr × Expr) :
    b ∈ pushPairs ord a b := by
  cases ord <;> simp [pushPairs]

theorem fatal_tail {paa : Bool} {x y : Expr} {rest : List (Expr × Expr)}
    (hf : ∃ p ∈ (x, y) :: rest, hasFatal paa p.1 p.2 = true)
    (hx : hasFatal paa x y = false) :
    ∃ p ∈ rest, hasFatal paa p.1 p.2 = true := by
  rcases hf with ⟨p, hp, hfp⟩
  rcases List.mem_cons.mp hp with h | h
  · subst h; rw [hx] at hfp; cases hfp
  · exact ⟨p, h, hfp⟩

theorem hasFatal_pow_atomic (xl xr yl yr : Expr) :
    hasFatal true (.binOp .pow xl xr) (.binOp .pow yl yr) = false := by
  simp [hasFatal]

theorem fatal_descend {paa : Bool} {opx : Op} {xl xr yl yr : Expr}
    {rest : List (Expr × Expr)} (ord : Bool)
    (hnb : ¬(opx = .pow ∧ paa = true))
    (hf : ∃ p ∈ (Expr.binOp opx xl xr, Expr.binOp opx yl yr) :: rest,
      hasFatal paa p.1 p.2 = true) :
    ∃ p ∈ pushPairs ord (xl, yl) (xr, yr) ++ rest, hasFatal paa p.1 p.2 = true := by
  rcases hf with ⟨p, hp, hfp⟩
  rcases List.mem_cons.mp hp with h | h
  · subst h
    simp only [hasFatal] at hfp
    rw [if_neg (by simp), if_neg hnb] at hfp
    rcases Bool.or_eq_true_iff.mp hfp with h1 | h1
    · exact ⟨(xl, yl), List.mem_append_left _ (mem_pushPairs_left ord _ _), h1⟩
    · exact ⟨(xr, yr), List.mem_append_left _ (mem_pushPairs_right ord _ _), h1⟩
  · exact ⟨p, List.mem_append_right _ h, hfp⟩

theorem matchLoopO_of_fatal (ord : Bool) (pol : Policy) (paa : Bool)
    (st : List (Expr × Expr)) (r : Finset (String × String))
    (hf : ∃ p ∈ st, hasFatal paa p.1 p.2 = true) :
    matchLoopO ord pol paa st r = ∅ := by
  induction st, r using matchLoopO.induct ord pol paa with
  | case1 r => simp at hf
  | case2 rest r opx xl xr opy yl yr hne hfat =>
    exact step_mismatch_fatal ord pol paa opx opy xl xr yl yr rest r hne hfat
  | case3 rest r opx xl xr opy yl yr hne hnf ih =>
    rw [step_mismatch_atomic ord pol paa opx opy xl xr yl yr rest r hne hnf]
    apply ih
    rcases hf with ⟨p, hp, hfp⟩
    rcases List.mem_cons.mp hp with h | h
    · subst h
      simp only [hasFatal] at hfp
      rw [if_pos hne] at hfp
      simp only [decide_eq_true_eq] at hfp
      exact absurd hfp hnf
    · exact ⟨p, h, hfp⟩
  | case4 rest r xl xr opy yl yr hpol hpaa hopy ih =>
    subst hpol; subst hpaa
    obtain rfl : Op.pow = opy := not_ne_iff.mp hopy
    rw [step_pow_shallow]
    exact ih (fatal_tail hf (hasFatal_pow_atomic xl xr yl yr))
  | case5 rest r xl xr opy yl yr hpol hpaa hopy ih =>
    subst hpol
    rw [Bool.not_eq_true] at hpaa; subst hpaa
    obtain rfl : Op.pow = opy := not_ne_iff.mp hopy
    rw [step_pow_noatomic]
    exact ih (fatal_descend ord (by simp) hf)
  | case6 rest r xl xr opy yl yr hpol hpaa hopy hnp ih =>
    exact absurd (not_ne_iff.mp hnp).symm hopy
  | case7 rest r xl xr opy yl yr hpol hpaa hopy hbl hcond hnp ih =>
    subst hpol; subst hpaa
    obtain rfl : Op.pow = opy := not_ne_iff.mp hnp
    rw [step_pow_deep, if_pos hbl, if_pos hcond]
    exact ih (fatal_tail hf (hasFatal_pow_atomic xl xr yl yr))
  | case8 rest r xl xr opy yl yr hpol hpaa hopy hbl hcond hnp ih =>
    subst hpol; subst hpaa
    obtain rfl : Op.pow = opy := not_ne_iff.mp hnp
    rw [step_pow_deep, if_pos hbl, if_neg hcond]
    exact ih (fatal_tail hf (hasFatal_pow_atomic xl xr yl yr))
  | case9 rest r xl xr opy yl yr hpol hpaa hopy hbl hcond hnp ih =>
    subst hpol; subst hpaa
    obtain rfl : Op.pow = opy := not_ne_iff.mp hnp
    rw [step_pow_deep, if_neg hbl, if_pos hcond]
    exact ih (fatal_tail hf (hasFatal_pow_atomic xl xr yl yr))
  | case10 rest r xl xr opy yl yr hpol hpaa hopy hbl hcond hnp ih =>
    subst hpol; subst hpaa
    obtain rfl : Op.pow = opy := not_ne_iff.mp hnp
    rw [step_pow_deep, if_neg hbl, if_neg hcond]
    exact ih (fatal_tail hf (hasFatal_pow_atomic xl xr yl yr))
  | case11 rest r xl xr opy yl yr hpol hpaa hopy ih =>
    subst hpol
    rw [Bool.not_eq_true] at hpaa; subst hpaa
    obtain rfl : Op.pow = opy := not_ne_iff.mp hopy
    rw [step_pow_noatomic]
    exact ih (fatal_descend ord (by simp) hf)
  | case12 rest r opx xl xr opy yl yr hee hnp ih =>
    obtain rfl : opx = opy := not_ne_iff.mp hee
    rw [step_descend ord pol paa opx xl xr yl yr rest r hnp]
    exact ih (fatal_descend ord (by simp [hnp]) hf)
  | case13 x y rest r hc hnb ih =>
    rw [step_leaf ord pol paa x y rest r (not_both_binOp hnb), if_pos hc]
    exact ih (fatal_tail hf (hasFatal_leaf paa (not_both_binOp hnb)))
  | case14 x y rest r hc hnb ih =>
    rw [step_leaf ord pol paa x y rest r (not_both_binOp hnb), if_neg hc]
    exact ih (fatal_tail hf (hasFatal_leaf paa (not_both_binOp hnb)))

theorem stackOk_tail {pol : Policy} {paa : Bool} {p : Expr × Expr}
    {st : List (Expr × Expr)}
    (h : ∀ q ∈ p :: st, hasFatal paa q.1 q.2 = false ∧ safePair pol paa q.1 q.2 = true) :
    ∀ q ∈ st, hasFatal paa q.1 q.2 = false ∧ safePair pol paa q.1 q.2 = true :=
  fun q hq => h q (List.mem_cons_of_mem p hq)

theorem stackOk_descend {pol : Policy} {paa : Bool} {opx : Op}
    {xl xr yl yr : Expr} {rest : List (Expr × Expr)} (ord : Bool)
    (hnb : ¬(opx = .pow ∧ paa = true))
    (h : ∀ q ∈ (Expr.binOp opx xl xr, Expr.binOp opx yl yr) :: rest,
      hasFatal paa q.1 q.2 = false ∧ safePair pol paa q.1 q.2 = true) :
    ∀ q ∈ pushPairs ord (xl, yl) (xr, yr) ++ rest,
      hasFatal paa q.1 q.2 = false ∧ safePair pol paa q.1 q.2 = true := by
  have hhead := h _ (List.mem_cons_self _ _)
  obtain ⟨hhf, hhs⟩ := hhead
  simp only [hasFatal] at hhf
  rw [if_neg (by simp), if_neg hnb] at hhf
  simp only [safePair] at hhs
  rw [if_neg (by simp), if_neg hnb] at hhs
  rw [Bool.or_eq_false_iff] at hhf
  rw [Bool.and_eq_true] at hhs
  intro q hq
  rcases List.mem_append.mp hq with hq | hq
  · cases ord <;> simp [pushPairs] at hq <;>
      rcases hq with hq | hq <;> subst hq <;>
      exact ⟨by tauto, by tauto⟩
  · exact h q (List.mem_cons_of_mem _ hq)

theorem matchLoopO_gather (ord : Bool) (pol : Policy) (paa : Bool)
    (st : List (Expr × Expr)) (r : Finset (String × String))
    (hok : ∀ p ∈ st, hasFatal paa p.1 p.2 = false ∧ safePair pol paa p.1 p.2 = true) :
    matchLoopO ord pol paa st r = r ∪ stackGather pol paa st := by
  induction st, r using matchLoopO.induct ord pol paa with
  | case1 r => rw [matchLoopO.eq_1, stackGather_nil, Finset.union_empty]
  | case2 rest r opx xl xr opy yl yr hne hfat =>
    obtain ⟨hhf, _⟩ := hok _ (List.mem_cons_self _ _)
    simp only [hasFatal] at hhf
    rw [if_pos hne] at hhf
    simp only [decide_eq_false_iff_not] at hhf
    exact absurd hfat hhf
  | case3 rest r opx xl xr opy yl yr hne hnf ih =>
    rw [step_mismatch_atomic ord pol paa opx opy xl xr yl yr rest r hne hnf,
      ih (stackOk_tail hok), stackGather_cons]
    have hg : gatherSet pol paa (Expr.binOp opx xl xr) (Expr.binOp opy yl yr)
        = {(unparse (Expr.binOp opx xl xr), unparse (Expr.binOp opy yl yr))} := by
      simp only [gatherSet]
      rw [if_pos hne, if_neg hnf]
    rw [hg]
    rw [← Finset.insert_eq, Finset.union_insert, Finset.insert_union]
  | case4 rest r xl xr opy yl yr hpol hpaa hopy ih =>
    subst hpol; subst hpaa
    obtain rfl : Op.pow = opy := not_ne_iff.mp hopy
    rw [step_pow_shallow, ih (stackOk_tail hok), stackGather_cons]
    have hg : gatherSet .shallow true (Expr.binOp .pow xl xr) (Expr.binOp .pow yl yr)
        = {(unparse (Expr.binOp .pow xl xr), unparse (Expr.binOp .pow yl yr))} := by
      simp [gatherSet]
    rw [hg]
    rw [← Finset.insert_eq, Finset.union_insert, Finset.insert_union]
  | case5 rest r xl xr opy yl yr hpol hpaa hopy ih =>
    subst hpol
    rw [Bool.not_eq_true] at hpaa; subst hpaa
    obtain rfl : Op.pow = opy := not_ne_iff.mp hopy
    rw [step_pow_noatomic, ih (stackOk_descend ord (by simp) hok),
      stackGather_pushPairs, stackGather_cons]
    have hg : gatherSet .shallow false (Expr.binOp .pow xl xr) (Expr.binOp .pow yl yr)
        = gatherSet .shallow false xl yl ∪ gatherSet .shallow false xr yr := by
      simp [gatherSet]
    rw [hg]
  | case6 rest r xl xr opy yl yr hpol hpaa hopy hnp ih =>
    exact absurd (not_ne_iff.mp hnp).symm hopy
  | case7 rest r xl xr opy yl yr hpol hpaa hopy hbl hcond hnp ih =>
    subst hpol; subst hpaa
    obtain rfl : Op.pow = opy := not_ne_iff.mp hnp
    rw [step_pow_deep, if_pos hbl, if_pos hcond, ih (stackOk_tail hok), stackGather_cons]
    have hg : gatherSet .deep true (Expr.binOp .pow xl xr) (Expr.binOp .pow yl yr)
        = {(unparse xr, unparse yr)} := by
      simp [gatherSet, hbl, hcond.1]
    rw [hg]
    rw [← Finset.insert_eq, Finset.union_insert, Finset.insert_union]
  | case8 rest r xl xr opy yl yr hpol hpaa hopy hbl hcond hnp ih =>
    subst hpol; subst hpaa
    obtain rfl : Op.pow = opy := not_ne_iff.mp hnp
    rw [step_pow_deep, if_pos hbl, if_neg hcond, ih (stackOk_tail hok), stackGather_cons]
    by_cases hxp : unparse xr = unparse yr
    · have hg : gatherSet .deep true (Expr.binOp .pow xl xr) (Expr.binOp .pow yl yr) = ∅ := by
        simp [gatherSet, hbl, hxp]
      rw [hg, Finset.empty_union]
    · have hmem : (unparse xr, unparse yr) ∈ r := by
        by_contra hmm
        exact hcond ⟨hxp, hmm⟩
      have hg : gatherSet .deep true (Expr.binOp .pow xl xr) (Expr.binOp .pow yl yr)
          = {(unparse xr, unparse yr)} := by
        simp [gatherSet, hbl, hxp]
      rw [hg, ← Finset.insert_eq, Finset.union_insert,
        Finset.insert_eq_self.mpr (Finset.mem_union_left _ hmem)]
  | case9 rest r xl xr opy yl yr hpol hpaa hopy hbl hcond hnp ih =>
    subst hpol; subst hpaa
    obtain rfl : Op.pow = opy := not_ne_iff.mp hnp
    obtain ⟨_, hhs⟩ := hok _ (List.mem_cons_self _ _)
    simp only [safePair] at hhs
    rw [if_neg (by simp), if_pos (by simp)] at hhs
    simp only [Bool.not_eq_true', decide_eq_false_iff_not] at hhs
    exact absurd ⟨hbl, hcond.1⟩ hhs
  | case10 rest r xl xr opy yl yr hpol hpaa hopy hbl hcond hnp ih =>
    subst hpol; subst hpaa
    obtain rfl : Op.pow = opy := not_ne_iff.mp hnp
    obtain ⟨_, hhs⟩ := hok _ (List.mem_cons_self _ _)
    simp only [safePair] at hhs
    rw [if_neg (by simp), if_pos (by simp)] at hhs
    simp only [Bool.not_eq_true', decide_eq_false_iff_not] at hhs
    have hxp : unparse xr ≠ unparse yr := fun h => hhs ⟨hbl, h⟩
    rw [step_pow_deep, if_neg hbl, if_neg hcond, ih (stackOk_tail hok), stackGather_cons]
    have hg : gatherSet .deep true (Expr.binOp .pow xl xr) (Expr.binOp .pow yl yr)
        = {(unparse (Expr.binOp .pow xl xr), unparse (Expr.binOp .pow yl yr))} := by
      simp [gatherSet, hbl, hxp]
    rw [hg]
    rw [← Finset.insert_eq, Finset.union_insert, Finset.insert_union]
  | case11 rest r xl xr opy yl yr hpol hpaa hopy ih =>
    subst hpol
    rw [Bool.not_eq_true] at hpaa; subst hpaa
    obtain rfl : Op.pow = opy := not_ne_iff.mp hopy
    rw [step_pow_noatomic, ih (stackOk_descend ord (by simp) hok),
      stackGather_pushPairs, stackGather_cons]
    have hg : gatherSet .deep false (Expr.binOp .pow xl xr) (Expr.binOp .pow yl yr)
        = gatherSet .deep false xl yl ∪ gatherSet .deep false xr yr := by
      simp [gatherSet]
    rw [hg]
  | case12 rest r opx xl xr opy yl yr hee hnp ih =>
    obtain rfl : opx = opy := not_ne_iff.mp hee
    rw [step_descend ord pol paa opx xl xr yl yr rest r hnp,
      ih (stackOk_descend ord (by simp [hnp]) hok),
      stackGather_pushPairs, stackGather_cons]
    have hg : gatherSet pol paa (Expr.binOp opx xl xr) (Expr.binOp opx yl yr)
        = gatherSet pol paa xl yl ∪ gatherSet pol paa xr yr := by
      simp only [gatherSet]
      rw [if_neg (by simp), if_neg hnp]
    rw [hg]
  | case13 x y rest r hc hnb ih =>
    obtain ⟨_, hhs⟩ := hok _ (List.mem_cons_self _ _)
    rw [safePair_leaf pol paa (not_both_binOp hnb)] at hhs
    rw [Bool.not_eq_true'] at hhs
    rw [hhs] at hc
    simp at hc
  | case14 x y rest r hc hnb ih =>
    rw [step_leaf ord pol paa x y rest r (not_both_binOp hnb), if_neg hc,
      ih (stackOk_tail hok), stackGather_cons,
      gatherSet_leaf pol paa (not_both_binOp hnb)]
    rw [← Finset.insert_eq, Finset.union_insert, Finset.insert_union]

/-- On a work list all of whose pairs are `safePair`, the final result
set does not depend on the order in which sibling pairs are visited. -/
theorem matchLoopO_ord_irrel (pol : Policy) (paa : Bool)
    (st : List (Expr × Expr)) (r : Finset (String × String))
    (hs : ∀ p ∈ st, safePair pol paa p.1 p.2 = true) :
    matchLoopO false pol paa st r = matchLoopO true pol paa st r := by
  by_cases hf : ∃ p ∈ st, hasFatal paa p.1 p.2 = true
  · rw [matchLoopO_of_fatal false pol paa st r hf,
      matchLoopO_of_fatal true pol paa st r hf]
  · push_neg at hf
    have hok : ∀ p ∈ st, hasFatal paa p.1 p.2 = false ∧ safePair pol paa p.1 p.2 = true :=
      fun p hp => ⟨Bool.not_eq_true _ ▸ hf p hp, hs p hp⟩
    rw [matchLoopO_gather false pol paa st r hok, matchLoopO_gather true pol paa st r hok]

/-- With `power_as_atomic = false` the two policies' loops coincide:
the only policy-dependent branch is the matched-power case, and both
policies descend there. -/
theorem matchLoopO_policy_eq (ord : Bool) (st : List (Expr × Expr))
    (r : Finset (String × String)) :
    matchLoopO ord .shallow false st r = matchLoopO ord .deep false st r := by
  induction st, r using matchLoopO.induct ord Policy.shallow false with
  | case1 r => rw [matchLoopO.eq_1, matchLoopO.eq_1]
  | case2 rest r opx xl xr opy yl yr hne hfat =>
    rw [step_mismatch_fatal ord .shallow false opx opy xl xr yl yr rest r hne hfat,
      step_mismatch_fatal ord .deep false opx opy xl xr yl yr rest r hne hfat]
  | case3 rest r opx xl xr opy yl yr hne hnf ih =>
    exact absurd (Or.inr rfl) hnf
  | case4 rest r xl xr opy yl yr hpol hpaa hopy ih =>
    exact absurd hpaa (by simp)
  | case5 rest r xl xr opy yl yr hpol hpaa hopy ih =>
    obtain rfl : Op.pow = opy := not_ne_iff.mp hopy
    rw [step_pow_noatomic ord .shallow xl xr yl yr rest r,
      step_pow_noatomic ord .deep xl xr yl yr rest r]
    exact ih
  | case6 rest r xl xr opy yl yr hpol hpaa hopy hnp ih => cases hpol
  | case7 rest r xl xr opy yl yr hpol hpaa hopy hbl hcond hnp ih => cases hpol
  | case8 rest r xl xr opy yl yr hpol hpaa hopy hbl hcond hnp ih => cases hpol
  | case9 rest r xl xr opy yl yr hpol hpaa hopy hbl hcond hnp ih => cases hpol
  | case10 rest r xl xr opy yl yr hpol hpaa hopy hbl hcond hnp ih => cases hpol
  | case11 rest r xl xr opy yl yr hpol hpaa hopy ih => cases hpol
  | case12 rest r opx xl xr opy yl yr hee hnp ih =>
    obtain rfl : opx = opy := not_ne_iff.mp hee
    rw [step_descend ord .shallow false opx xl xr yl yr rest r hnp,
      step_descend ord .deep false opx xl xr yl yr rest r hnp]
    exact ih
  | case13 x y rest r hc hnb ih =>
    rw [step_leaf ord .shallow false x y rest r (not_both_binOp hnb), if_pos hc,
      step_leaf ord .deep false x y rest r (not_both_binOp hnb), if_pos hc]
    exact ih
  | case14 x y rest r hc hnb ih =>
    rw [step_leaf ord .shallow false x y rest r (not_both_binOp hnb), if_neg hc,
      step_leaf ord .deep false x y rest r (not_both_binOp hnb), if_neg hc]
    exact ih

/-- Matching a diagonal work list (every pair relates a tree to itself)
only ever emits reflexive pairs. -/
theorem matchLoopO_diag (ord : Bool) (pol : Policy) (paa : Bool)
    (st : List (Expr × Expr)) (r : Finset (String × String))
    (hst : ∀ p ∈ st, p.1 = p.2) (hr : ∀ q ∈ r, q.1 = q.2) :
    ∀ q ∈ matchLoopO ord pol paa st r, q.1 = q.2 := by
  induction st, r using matchLoopO.induct ord pol paa with
  | case1 r => rw [matchLoopO.eq_1]; exact hr
  | case2 rest r opx xl xr opy yl yr hne hfat =>
    have := hst _ (List.mem_cons_self _ _)
    simp only [Expr.binOp.injEq] at this
    exact absurd this.1 hne
  | case3 rest r opx xl xr opy yl yr hne hnf ih =>
    have := hst _ (List.mem_cons_self _ _)
    simp only [Expr.binOp.injEq] at this
    exact absurd this.1 hne
  | case4 rest r xl xr opy yl yr hpol hpaa hopy ih =>
    subst hpol; subst hpaa
    obtain rfl : Op.pow = opy := not_ne_iff.mp hopy
    have hd := hst _ (List.mem_cons_self _ _)
    simp only [Expr.binOp.injEq] at hd
    rw [step_pow_shallow]
    refine ih (fun p hp => hst p (List.mem_cons_of_mem _ hp)) ?_
    intro q hq
    rcases Finset.mem_insert.mp hq with hq | hq
    · subst hq; rw [hd.2.1, hd.2.2]
    · exact hr q hq
  | case5 rest r xl xr opy yl yr hpol hpaa hopy ih =>
    subst hpol
    rw [Bool.not_eq_true] at hpaa; subst hpaa
    obtain rfl : Op.pow = opy := not_ne_iff.mp hopy
    have hd := hst _ (List.mem_cons_self _ _)
    simp only [Expr.binOp.injEq] at hd
    rw [step_pow_noatomic]
    refine ih (fun p hp => ?_) hr
    rcases List.mem_append.mp hp with hp | hp
    · cases ord <;> simp [pushPairs] at hp <;>
        rcases hp with hp | hp <;> subst hp <;> simp [hd.2.1, hd.2.2]
    · exact hst p (List.mem_cons_of_mem _ hp)
  | case6 rest r xl xr opy yl yr hpol hpaa hopy hnp ih =>
    exact absurd (not_ne_iff.mp hnp).symm hopy
  | case7 rest r xl xr opy yl yr hpol hpaa hopy hbl hcond hnp ih =>
    have hd := hst _ (List.mem_cons_self _ _)
    simp only [Expr.binOp.injEq] at hd
    exact absurd (hd.2.2 ▸ rfl) hcond.1
  | case8 rest r xl xr opy yl yr hpol hpaa hopy hbl hcond hnp ih =>
    subst hpol; subst hpaa
    obtain rfl : Op.pow = opy := not_ne_iff.mp hnp
    rw [step_pow_deep, if_pos hbl, if_neg hcond]
    exact ih (fun p hp => hst p (List.mem_cons_of_mem _ hp)) hr
  | case9 rest r xl xr opy yl yr hpol hpaa hopy hbl hcond hnp ih =>
    have hd := hst _ (List.mem_cons_self _ _)
    simp only [Expr.binOp.injEq] at hd
    exact absurd (hd.2.1 ▸ rfl) hbl
  | case10 rest r xl xr opy yl yr hpol hpaa hopy hbl hcond hnp ih =>
    have hd := hst _ (List.mem_cons_self _ _)
    simp only [Expr.binOp.injEq] at hd
    exact absurd (hd.2.1 ▸ rfl) hbl
  | case11 rest r xl xr opy yl yr hpol hpaa hopy ih =>
    subst hpol
    rw [Bool.not_eq_true] at hpaa; subst hpaa
    obtain rfl : Op.pow = opy := not_ne_iff.mp hopy
    have hd := hst _ (List.mem_cons_self _ _)
    simp only [Expr.binOp.injEq] at hd
    rw [step_pow_noatomic]
    refine ih (fun p hp => ?_) hr
    rcases List.mem_append.mp hp with hp | hp
    · cases ord <;> simp [pushPairs] at hp <;>
        rcases hp with hp | hp <;> subst hp <;> simp [hd.2.1, hd.2.2]
    · exact hst p (List.mem_cons_of_mem _ hp)
  | case12 rest r opx xl xr opy yl yr hee hnp ih =>
    obtain rfl : opx = opy := not_ne_iff.mp hee
    have hd := hst _ (List.mem_cons_self _ _)
    simp only [Expr.binOp.injEq] at hd
    rw [step_descend ord pol paa opx xl xr yl yr rest r hnp]
    refine ih (fun p hp => ?_) hr
    rcases List.mem_append.mp hp with hp | hp
    · cases ord <;> simp [pushPairs] at hp <;>
        rcases hp with hp | hp <;> subst hp <;> simp [hd.2.1, hd.2.2]
    · exact hst p (List.mem_cons_of_mem _ hp)
  | case13 x y rest r hc hnb ih =>
    rw [step_leaf ord pol paa x y rest r (not_both_binOp hnb), if_pos hc]
    exact ih (fun p hp => hst p (List.mem_cons_of_mem _ hp)) hr
  | case14 x y rest r hc hnb ih =>
    have hd := hst _ (List.mem_cons_self _ _)
    rw [step_leaf ord pol paa x y rest r (not_both_binOp hnb), if_neg hc]
    refine ih (fun p hp => hst p (List.mem_cons_of_mem _ hp)) ?_
    intro q hq
    rcases Finset.mem_insert.mp hq with hq | hq
    · subst hq
      have hxy : x = y := hd
      simp [hxy]
    · exact hr q hq

/-- Order-independence at the level of the public functions, under the
safety hypothesis on the parsed root pair. -/
theorem runMatchO_ord_irrel (pol : Policy) (paa : Bool) (e1 e2 : String)
    (t1 t2 : Expr) (h1 : parse e1 = some t1) (h2 : parse e2 = some t2)
    (hs : safePair pol paa t1 t2 = true) :
    runMatchO false pol e1 e2 paa = runMatchO true pol e1 e2 paa := by
  have hstack : ∀ p ∈ [(t1, t2)], safePair pol paa p.1 p.2 = true := by
    intro p hp
    simp only [List.mem_singleton] at hp
    subst hp
    exact hs
  unfold runMatchO
  rw [h1, h2]
  cases t1 <;> cases t2 <;> (try rfl) <;> dsimp only <;>
    split_ifs <;> first
      | rfl
      | exact matchLoopO_ord_irrel pol paa _ ∅ hstack

/-- With `power_as_atomic = false`, `shallow_match` and `deep_match`
agree on every input. -/
theorem runMatchO_policy_eq (ord : Bool) (e1 e2 : String) :
    runMatchO ord .shallow e1 e2 false = runMatchO ord .deep e1 e2 false := by
  unfold runMatchO
  cases hp1 : parse e1 <;> cases hp2 : parse e2 <;> try rfl
  rename_i t1 t2
  cases t1 <;> cases t2 <;> (try rfl) <;> dsimp only <;>
    split_ifs <;> first
      | rfl
      | exact matchLoopO_policy_eq ord _ ∅

/-- Matching a string against itself only produces reflexive pairs. -/
theorem runMatchO_diag (ord : Bool) (pol : Policy) (paa : Bool) (e : String) :
    ∀ q ∈ runMatchO ord pol e e paa, q.1 = q.2 := by
  intro q hq
  unfold runMatchO at hq
  cases hp : parse e with
  | none => rw [hp] at hq; simp at hq
  | some t =>
    rw [hp] at hq
    cases t with
    | binOp op l r =>
      dsimp only at hq
      rw [if_neg (by simp)] at hq
      refine matchLoopO_diag ord pol paa _ ∅ ?_ (by simp) q hq
      intro p hp
      simp only [List.mem_singleton] at hp
      subst hp
      rfl
    | name s =>
      simp only [Finset.mem_singleton] at hq
      subst hq; rfl
    | const v =>
      simp only [Finset.mem_singleton] at hq
      subst hq; rfl

/-- Fuel-driven mirror of `matchLoopO`, used to evaluate the matcher on
concrete inputs (the work-list loop itself is defined by well-founded
recursion, which does not reduce definitionally).  `matchLoopF_eq`
shows the two agree whenever the fuel exceeds the stack weight. -/
def matchLoopF (ord : Bool) (pol : Policy) (paa : Bool) :
    Nat → List (Expr × Expr) → Finset (String × String) → Finset (String × String)
  | _, [], results => results
  | 0, _ :: _, _ => ∅
  | fuel + 1, (x, y) :: rest, results =>
    match x, y with
    | .binOp opx xl xr, .binOp opy yl yr =>
      if opx ≠ opy then
        if (opx ≠ .pow ∧ opy ≠ .pow) ∨ paa = false then ∅
        else matchLoopF ord pol paa fuel rest (insert (unparse x, unparse y) results)
      else
        if opx = .pow then
          match pol with
          | .shallow =>
            if paa then
              matchLoopF ord pol paa fuel rest (insert (unparse x, unparse y) results)
            else
              matchLoopF ord pol paa fuel (pushPairs ord (xl, yl) (xr, yr) ++ rest) results
          | .deep =>
            if paa then
              if opy ≠ .pow then
                matchLoopF ord pol paa fuel rest (insert (unparse x, unparse y) results)
              else
                if unparse xl = unparse yl then
                  if unparse xr ≠ unparse yr ∧ (unparse xr, unparse yr) ∉ results then
                    matchLoopF ord pol paa fuel rest (insert (unparse xr, unparse yr) results)
                  else
                    matchLoopF ord pol paa fuel rest results
                else
                  if unparse xr = unparse yr ∧ (unparse xl, unparse yl) ∉ results then
                    matchLoopF ord pol paa fuel rest (insert (unparse xl, unparse yl) results)
                  else
                    matchLoopF ord pol paa fuel rest (insert (unparse x, unparse y) results)
            else
              matchLoopF ord pol paa fuel (pushPairs ord (xl, yl) (xr, yr) ++ rest) results
        else
          matchLoopF ord pol paa fuel (pushPairs ord (xl, yl) (xr, yr) ++ rest) results
    | _, _ =>
      if constPair x y = true ∧ results ≠ ∅ then
        matchLoopF ord pol paa fuel rest results
      else
        matchLoopF ord pol paa fuel rest (insert (unparse x, unparse y) results)

theorem stackWeight_cons_lt {x y : Expr} {rest : List (Expr × Expr)} {f : Nat}
    (hf : stackWeight ((x, y) :: rest) < f + 1) : stackWeight rest < f := by
  rw [stackWeight_cons] at hf
  have hx := Expr.size_pos x
  have hy := Expr.size_pos y
  simp only [pairSize] at hf
  omega

theorem stackWeight_push_lt {opx opy : Op} {xl xr yl yr : Expr}
    {rest : List (Expr × Expr)} {f : Nat} (ord : Bool)
    (hf : stackWeight ((Expr.binOp opx xl xr, Expr.binOp opy yl yr) :: rest) < f + 1) :
    stackWeight (pushPairs ord (xl, yl) (xr, yr) ++ rest) < f := by
  rw [stackWeight_cons] at hf
  rw [stackWeight_pushPairs]
  simp only [pairSize, Expr.size] at hf ⊢
  omega

theorem matchLoopF_eq (ord : Bool) (pol : Policy) (paa : Bool)
    (st : List (Expr × Expr)) (r : Finset (String × String)) :
    ∀ fuel, stackWeight st < fuel →
      matchLoopF ord pol paa fuel st r = matchLoopO ord pol paa st r := by
  induction st, r using matchLoopO.induct ord pol paa with
  | case1 r =>
    intro fuel hf
    cases fuel <;> rw [matchLoopF, matchLoopO.eq_1]
  | case2 rest r opx xl xr opy yl yr hne hfat =>
    intro fuel hf
    cases fuel with
    | zero => exact absurd hf (Nat.not_lt_zero _)
    | succ f =>
      rw [step_mismatch_fatal ord pol paa opx opy xl xr yl yr rest r hne hfat]
      simp only [matchLoopF]
      rw [if_pos hne, if_pos hfat]
  | case3 rest r opx xl xr opy yl yr hne hnf ih =>
    intro fuel hf
    cases fuel with
    | zero => exact absurd hf (Nat.not_lt_zero _)
    | succ f =>
      rw [step_mismatch_atomic ord pol paa opx opy xl xr yl yr rest r hne hnf]
      simp only [matchLoopF]
      rw [if_pos hne, if_neg hnf]
      exact ih f (stackWeight_cons_lt hf)
  | case4 rest r xl xr opy yl yr hpol hpaa hopy ih =>
    subst hpol; subst hpaa
    obtain rfl : Op.pow = opy := not_ne_iff.mp hopy
    intro fuel hf
    cases fuel with
    | zero => exact absurd hf (Nat.not_lt_zero _)
    | succ f =>
      rw [step_pow_shallow]
      simp only [matchLoopF, if_true, Bool.false_eq_true, if_false]
      exact ih f (stackWeight_cons_lt hf)
  | case5 rest r xl xr opy yl yr hpol hpaa hopy ih =>
    subst hpol
    rw [Bool.not_eq_true] at hpaa; subst hpaa
    obtain rfl : Op.pow = opy := not_ne_iff.mp hopy
    intro fuel hf
    cases fuel with
    | zero => exact absurd hf (Nat.not_lt_zero _)
    | succ f =>
      rw [step_pow_noatomic]
      simp only [matchLoopF, if_true, Bool.false_eq_true, if_false]
      exact ih f (stackWeight_push_lt ord hf)
  | case6 rest r xl xr opy yl yr hpol hpaa hopy hnp ih =>
    exact absurd (not_ne_iff.mp hnp).symm hopy
  | case7 rest r xl xr opy yl yr hpol hpaa hopy hbl hcond hnp ih =>
    subst hpol; subst hpaa
    obtain rfl : Op.pow = opy := not_ne_iff.mp hnp
    intro fuel hf
    cases fuel with
    | zero => exact absurd hf (Nat.not_lt_zero _)
    | succ f =>
      rw [step_pow_deep, if_pos hbl, if_pos hcond]
      simp only [matchLoopF, if_true, Bool.false_eq_true, if_false]
      rw [if_pos hbl, if_pos hcond]
      exact ih f (stackWeight_cons_lt hf)
  | case8 rest r xl xr opy yl yr hpol hpaa hopy hbl hcond hnp ih =>
    subst hpol; subst hpaa
    obtain rfl : Op.pow = opy := not_ne_iff.mp hnp
    intro fuel hf
    cases fuel with
    | zero => exact absurd hf (Nat.not_lt_zero _)
    | succ f =>
      rw [step_pow_deep, if_pos hbl, if_neg hcond]
      simp only [matchLoopF, if_true, Bool.false_eq_true, if_false]
      rw [if_pos hbl, if_neg hcond]
      exact ih f (stackWeight_cons_lt hf)
  | case9 rest r xl xr opy yl yr hpol hpaa hopy hbl hcond hnp ih =>
    subst hpol; subst hpaa
    obtain rfl : Op.pow = opy := not_ne_iff.mp hnp
    intro fuel hf
    cases fuel with
    | zero => exact absurd hf (Nat.not_lt_zero _)
    | succ f =>
      rw [step_pow_deep, if_neg hbl, if_pos hcond]
      simp only [matchLoopF, if_true, Bool.false_eq_true, if_false]
      rw [if_neg hbl, if_pos hcond]
      exact ih f (stackWeight_cons_lt hf)
  | case10 rest r xl xr opy yl yr hpol hpaa hopy hbl hcond hnp ih =>
    subst hpol; subst hpaa
    obtain rfl : Op.pow = opy := not_ne_iff.mp hnp
    intro fuel hf
    cases fuel with
    | zero => exact absurd hf (Nat.not_lt_zero _)
    | succ f =>
      rw [step_pow_deep, if_neg hbl, if_neg hcond]
      simp only [matchLoopF, if_true, Bool.false_eq_true, if_false]
      rw [if_neg hbl, if_neg hcond]
      exact ih f (stackWeight_cons_lt hf)
  | case11 rest r xl xr opy yl yr hpol hpaa hopy ih =>
    subst hpol
    rw [Bool.not_eq_true] at hpaa; subst hpaa
    obtain rfl : Op.pow = opy := not_ne_iff.mp hopy
    intro fuel hf
    cases fuel with
    | zero => exact absurd hf (Nat.not_lt_zero _)
    | succ f =>
      rw [step_pow_noatomic]
      simp only [matchLoopF, if_true, Bool.false_eq_true, if_false]
      exact ih f (stackWeight_push_lt ord hf)
  | case12 rest r opx xl xr opy yl yr hee hnp ih =>
    obtain rfl : opx = opy := not_ne_iff.mp hee
    intro fuel hf
    cases fuel with
    | zero => exact absurd hf (Nat.not_lt_zero _)
    | succ f =>
      rw [step_descend ord pol paa opx xl xr yl yr rest r hnp]
      simp only [matchLoopF, if_true, Bool.false_eq_true, if_false]
      rw [if_neg (show ¬(opx ≠ opx) by simp), if_neg hnp]
      exact ih f (stackWeight_push_lt ord hf)
  | case13 x y rest r hc hnb ih =>
    intro fuel hf
    cases fuel with
    | zero => exact absurd hf (Nat.not_lt_zero _)
    | succ f =>
      rw [step_leaf ord pol paa x y rest r (not_both_binOp hnb), if_pos hc]
      have hstep : matchLoopF ord pol paa (f + 1) ((x, y) :: rest) r
          = matchLoopF ord pol paa f rest r := by
        cases x <;> cases y <;> first
          | (exfalso; exact hnb _ _ _ _ _ _ rfl rfl)
          | (simp only [matchLoopF]; rw [if_pos hc])
      rw [hstep]
      exact ih f (stackWeight_cons_lt hf)
  | case14 x y rest r hc hnb ih =>
    intro fuel hf
    cases fuel with
    | zero => exact absurd hf (Nat.not_lt_zero _)
    | succ f =>
      rw [step_leaf ord pol paa x y rest r (not_both_binOp hnb), if_neg hc]
      have hstep : matchLoopF ord pol paa (f + 1) ((x, y) :: rest) r
          = matchLoopF ord pol paa f rest (insert (unparse x, unparse y) r) := by
        cases x <;> cases y <;> first
          | (exfalso; exact hnb _ _ _ _ _ _ rfl rfl)
          | (simp only [matchLoopF]; rw [if_neg hc])
      rw [hstep]
      exact ih f (stackWeight_cons_lt hf)

/-- Fuel-driven mirror of `runMatchO`, used for evaluation on concrete
inputs; agrees with `runMatchO` by `runMatchF_eq`. -/
def runMatchF (ord : Bool) (pol : Policy) (e1 e2 : String) (paa : Bool) :
    Finset (String × String) :=
  match parse e1, parse e2 with
  | some t1, some t2 =>
    match t1, t2 with
    | .binOp op1 _ _, .binOp op2 _ _ =>
      if op1 ≠ op2 then
        if paa then
          if op1 = .pow ∨ op2 = .pow then {(e1, e2)}
          else matchLoopF ord pol paa (stackWeight [(t1, t2)] + 1) [(t1, t2)] ∅
        else ∅
      else matchLoopF ord pol paa (stackWeight [(t1, t2)] + 1) [(t1, t2)] ∅
    | _, _ => {(e1, e2)}
  | _, _ => ∅

theorem runMatchF_eq (ord : Bool) (pol : Policy) (e1 e2 : String) (paa : Bool) :
    runMatchF ord pol e1 e2 paa = runMatchO ord pol e1 e2 paa := by
  unfold runMatchF runMatchO
  cases parse e1 <;> cases parse e2 <;> try rfl
  rename_i t1 t2
  cases t1 <;> cases t2 <;> (try rfl) <;> dsimp only <;>
    split_ifs <;> first
      | rfl
      | exact matchLoopF_eq ord pol paa _ ∅ _ (Nat.lt_succ_self _)

/-! The claims. -/

/-- C1: whenever the work-list traversal of `shallow_match` or
`deep_match` visits a pair of `BinOp` nodes whose operator kinds differ,
then: if neither operator is power, or `power_as_atomic` is false, the
whole call returns the empty set; if `power_as_atomic` is true and at
least one operator is power, the rendered pair
`(render(x), render(y))` is added and the traversal does not descend
into that branch (the step continues with the rest of the work list). -/
theorem claim1_operator_mismatch (pol : Policy) (paa : Bool) (opx opy : Op)
    (xl xr yl yr : Expr) (rest : List (Expr × Expr))
    (r : Finset (String × String)) (hne : opx ≠ opy) :
    ((opx ≠ .pow ∧ opy ≠ .pow) ∨ paa = false →
      matchLoop pol paa ((.binOp opx xl xr, .binOp opy yl yr) :: rest) r = ∅)
    ∧ (paa = true → opx = .pow ∨ opy = .pow →
      matchLoop pol paa ((.binOp opx xl xr, .binOp opy yl yr) :: rest) r
        = matchLoop pol paa rest
            (insert (unparse (.binOp opx xl xr), unparse (.binOp opy yl yr)) r)) := by
  constructor
  · intro hfat
    exact step_mismatch_fatal false pol paa opx opy xl xr yl yr rest r hne hfat
  · intro hpaa hpow
    apply step_mismatch_atomic false pol paa opx opy xl xr yl yr rest r hne
    rintro (⟨ha, hb⟩ | hfalse)
    · rcases hpow with h | h
      · exact ha h
      · exact hb h
    · rw [hpaa] at hfalse
      cases hfalse

theorem claim1_operator_mismatch_witness :
    matchLoop .shallow true
      [(.binOp .add (.name "a") (.name "b"), .binOp .mul (.name "x") (.name "y"))] ∅ = ∅
    ∧ matchLoop .shallow true
      [(.binOp .pow (.name "a") (.const 2), .binOp .add (.name "x") (.name "y"))] ∅
      = matchLoop .shallow true []
          (insert (unparse (.binOp .pow (.name "a") (.const 2)),
            unparse (.binOp .add (.name "x") (.name "y"))) ∅) :=
  ⟨(claim1_operator_mismatch .shallow true .add .mul (.name "a") (.name "b")
      (.name "x") (.name "y") [] ∅ (by decide)).1 (Or.inl (by decide)),
    (claim1_operator_mismatch .shallow true .pow .add (.name "a") (.const 2)
      (.name "x") (.name "y") [] ∅ (by decide)).2 rfl (Or.inl rfl)⟩

/-- C2 (counterexample): the claim states that when the visited power
pair has bases rendering differently and exponents rendering equally,
the base pair is emitted (the step would continue with
`insert (base_x, base_y) results`, which here changes nothing since the
base pair is already present).  On `x = a ** 2`, `y = b ** 2` with
`("a", "b")` already in the result set, the code instead inserts the
whole rendered pair `("a ** 2", "b ** 2")`. -/
theorem claim2_counterexample :
    matchLoop .deep true
      [(.binOp .pow (.name "a") (.const 2), .binOp .pow (.name "b") (.const 2))]
      {("a", "b")}
    ≠ matchLoop .deep true [] (insert ("a", "b") {("a", "b")}) := by
  rw [matchLoop, matchLoop,
    ← matchLoopF_eq false .deep true _ _ _ (Nat.lt_succ_self _),
    ← matchLoopF_eq false .deep true _ _ _ (Nat.lt_succ_self _)]
  decide

/-- C2 (amended): in `deep_match` with `power_as_atomic` true, a visited
pair of power nodes is handled without descending into its subtrees as
follows: if the bases render identically and the exponents render
differently, exactly the exponent pair is emitted; if bases and
exponents both render identically, nothing is emitted; if the bases
render differently and the exponents render identically, the base pair
is emitted when it is not already in the result set, and otherwise the
whole pair `(render(x), render(y))` is emitted in its place; if both
bases and exponents render differently, the whole pair is emitted. -/
theorem claim2_deep_power_amended (xl xr yl yr : Expr)
    (rest : List (Expr × Expr)) (r : Finset (String × String)) :
    (unparse xl = unparse yl → unparse xr ≠ unparse yr →
      matchLoop .deep true ((.binOp .pow xl xr, .binOp .pow yl yr) :: rest) r
        = matchLoop .deep true rest (insert (unparse xr, unparse yr) r))
    ∧ (unparse xl = unparse yl → unparse xr = unparse yr →
      matchLoop .deep true ((.binOp .pow xl xr, .binOp .pow yl yr) :: rest) r
        = matchLoop .deep true rest r)
    ∧ (unparse xl ≠ unparse yl → unparse xr = unparse yr →
        (unparse xl, unparse yl) ∉ r →
      matchLoop .deep true ((.binOp .pow xl xr, .binOp .pow yl yr) :: rest) r
        = matchLoop .deep true rest (insert (unparse xl, unparse yl) r))
    ∧ (unparse xl ≠ unparse yl → unparse xr = unparse yr →
        (unparse xl, unparse yl) ∈ r →
      matchLoop .deep true ((.binOp .pow xl xr, .binOp .pow yl yr) :: rest) r
        = matchLoop .deep true rest
            (insert (unparse (.binOp .pow xl xr), unparse (.binOp .pow yl yr)) r))
    ∧ (unparse xl ≠ unparse yl → unparse xr ≠ unparse yr →
      matchLoop .deep true ((.binOp .pow xl xr, .binOp .pow yl yr) :: rest) r
        = matchLoop .deep true rest
            (insert (unparse (.binOp .pow xl xr), unparse (.binOp .pow yl yr)) r)) := by
  refine ⟨fun hb hp => ?_, fun hb hp => ?_, fun hb hp hm => ?_, fun hb hp hm => ?_,
    fun hb hp => ?_⟩
  · by_cases hm : (unparse xr, unparse yr) ∈ r
    · rw [matchLoop, step_pow_deep, if_pos hb, if_neg (by tauto),
        Finset.insert_eq_self.mpr hm]
      rfl
    · rw [matchLoop, step_pow_deep, if_pos hb, if_pos ⟨hp, hm⟩]
      rfl
  · rw [matchLoop, step_pow_deep, if_pos hb, if_neg (by tauto)]
    rfl
  · rw [matchLoop, step_pow_deep, if_neg hb, if_pos ⟨hp, hm⟩]
    rfl
  · rw [matchLoop, step_pow_deep, if_neg hb, if_neg (by tauto)]
    rfl
  · rw [matchLoop, step_pow_deep, if_neg hb, if_neg (by tauto)]
    rfl

theorem claim2_deep_power_witness :
    matchLoop .deep true
      [(.binOp .pow (.name "a") (.name "u"), .binOp .pow (.name "a") (.name "v"))] ∅
      = matchLoop .deep true [] (insert ("u", "v") ∅)
    ∧ matchLoop .deep true
      [(.binOp .pow (.name "a") (.name "c"), .binOp .pow (.name "b") (.name "c"))]
      {("a", "b")}
      = matchLoop .deep true []
          (insert (unparse (Expr.binOp .pow (.name "a") (.name "c")),
            unparse (Expr.binOp .pow (.name "b") (.name "c"))) {("a", "b")}) :=
  ⟨(claim2_deep_power_amended (.name "a") (.name "u") (.name "a") (.name "v") [] ∅).1
      (by decide) (by decide),
    (claim2_deep_power_amended (.name "a") (.name "c") (.name "b") (.name "c") []
        {("a", "b")}).2.2.2.1 (by decide) (by decide) (by decide)⟩

/-- C3: in `shallow_match`, a visited pair of power nodes with
`power_as_atomic` true emits exactly the whole rendered pair and does
not descend; with `power_as_atomic` false the traversal descends into
the (left, left) and (right, right) child pairs like any other matched
operator.  In particular
`shallow_match("a**2+b", "x**2+y")` = `{("a ** 2", "x ** 2"), ("b", "y")}`. -/
theorem claim3_shallow_power (paa : Bool) (xl xr yl yr : Expr)
    (rest : List (Expr × Expr)) (r : Finset (String × String)) :
    (paa = true →
      matchLoop .shallow paa ((.binOp .pow xl xr, .binOp .pow yl yr) :: rest) r
        = matchLoop .shallow paa rest
            (insert (unparse (.binOp .pow xl xr), unparse (.binOp .pow yl yr)) r))
    ∧ (paa = false →
      matchLoop .shallow paa ((.binOp .pow xl xr, .binOp .pow yl yr) :: rest) r
        = matchLoop .shallow paa ((xl, yl) :: (xr, yr) :: rest) r)
    ∧ shallow_match "a**2+b" "x**2+y" true = {("a ** 2", "x ** 2"), ("b", "y")} := by
  refine ⟨fun hpaa => ?_, fun hpaa => ?_, ?_⟩
  · subst hpaa
    rw [matchLoop, step_pow_shallow]
    rfl
  · subst hpaa
    rw [matchLoop, step_pow_noatomic]
    rfl
  · rw [shallow_match, ← runMatchF_eq]
    decide

theorem claim3_shallow_power_witness :
    matchLoop .shallow true
      [(.binOp .pow (.name "a") (.const 2), .binOp .pow (.name "x") (.const 2))] ∅
      = matchLoop .shallow true []
          (insert (unparse (Expr.binOp .pow (.name "a") (.const 2)),
            unparse (Expr.binOp .pow (.name "x") (.const 2))) ∅)
    ∧ matchLoop .shallow false
      [(.binOp .pow (.name "a") (.const 2), .binOp .pow (.name "x") (.const 2))] ∅
      = matchLoop .shallow false
          [((.name "a" : Expr), (.name "x" : Expr)),
           ((.const 2 : Expr), (.const 2 : Expr))] ∅ :=
  ⟨(claim3_shallow_power true (.name "a") (.const 2) (.name "x") (.const 2) [] ∅).1 rfl,
    (claim3_shallow_power false (.name "a") (.const 2) (.name "x") (.const 2) [] ∅).2.1 rfl⟩

/-- C4: in both matching functions, a visited pair of equal-valued
numeric constants is skipped when the accumulated result set is
non-empty, and emitted when the result set is still empty; consequently
`deep_match("2+2", "2+2")` is non-empty. -/
theorem claim4_constant_skip (pol : Policy) (paa : Bool) (v : Nat)
    (rest : List (Expr × Expr)) (r : Finset (String × String)) :
    (r ≠ ∅ →
      matchLoop pol paa ((.const v, .const v) :: rest) r = matchLoop pol paa rest r)
    ∧ (r = ∅ →
      matchLoop pol paa ((.const v, .const v) :: rest) r
        = matchLoop pol paa rest (insert (unparse (.const v), unparse (.const v)) r))
    ∧ deep_match "2+2" "2+2" true ≠ ∅ := by
  refine ⟨fun hne => ?_, fun hemp => ?_, ?_⟩
  · rw [matchLoop, step_leaf false pol paa (.const v) (.const v) rest r (Or.inl rfl),
      if_pos ⟨by simp [constPair], hne⟩]
    rfl
  · rw [matchLoop, step_leaf false pol paa (.const v) (.const v) rest r (Or.inl rfl),
      if_neg (by simp [hemp])]
    rfl
  · rw [deep_match, ← runMatchF_eq]
    decide

theorem claim4_constant_skip_witness :
    matchLoop .deep true [((.const 7 : Expr), (.const 7 : Expr))] {("a", "b")}
      = matchLoop .deep true [] {("a", "b")}
    ∧ matchLoop .deep true [((.const 7 : Expr), (.const 7 : Expr))] ∅
      = matchLoop .deep true [] (insert (unparse (.const 7), unparse (.const 7)) ∅) :=
  ⟨(claim4_constant_skip .deep true 7 [] {("a", "b")}).1 (by decide),
    (claim4_constant_skip .deep true 7 [] ∅).2.1 rfl⟩

/-- C5: when either input string fails to parse, both matching
functions return the empty set; being total Lean functions, they return
this value rather than raising any error. -/
theorem claim5_parse_failure (paa : Bool) (e1 e2 : String)
    (h : parse e1 = none ∨ parse e2 = none) :
    shallow_match e1 e2 paa = ∅ ∧ deep_match e1 e2 paa = ∅ := by
  rcases h with h | h
  · constructor <;> simp [shallow_match, deep_match, runMatchO, h]
  · cases hp1 : parse e1 <;>
      constructor <;> simp [shallow_match, deep_match, runMatchO, h, hp1]

theorem claim5_parse_failure_witness :
    shallow_match "(" "a" true = ∅ ∧ deep_match "(" "a" true = ∅ :=
  claim5_parse_failure true "(" "a" (Or.inl (by decide))

/-- C6: when both strings parse but either root is not a `BinOp`, both
matching functions return exactly the singleton containing the raw
input strings verbatim, for either value of `power_as_atomic`. -/
theorem claim6_non_binop_root (paa : Bool) (e1 e2 : String) (t1 t2 : Expr)
    (h1 : parse e1 = some t1) (h2 : parse e2 = some t2)
    (h : t1.isBinOp = false ∨ t2.isBinOp = false) :
    shallow_match e1 e2 paa = {(e1, e2)} ∧ deep_match e1 e2 paa = {(e1, e2)} := by
  rw [shallow_match, deep_match]
  unfold runMatchO
  rw [h1, h2]
  cases t1 <;> cases t2 <;> first
    | exact ⟨rfl, rfl⟩
    | (simp [Expr.isBinOp] at h)

theorem claim6_non_binop_root_witness :
    shallow_match "a" "b+c" true = {("a", "b+c")}
    ∧ deep_match "a" "b+c" true = {("a", "b+c")} :=
  claim6_non_binop_root true "a" "b+c" (.name "a")
    (.binOp .add (.name "b") (.name "c")) (by decide) (by decide) (Or.inl rfl)

/-- C7 (counterexample): visiting the sibling pairs in the opposite
order can change the final set.  On `shallow_match("2+a", "2+b")` the
left-first order emits `("2", "2")` while the result set is still empty
and then `("a", "b")`; the right-first order emits `("a", "b")` first,
after which the constant-skip rule drops `("2", "2")`. -/
theorem claim7_counterexample :
    shallow_match "2+a" "2+b" true ≠ shallow_match_rev "2+a" "2+b" true := by
  rw [shallow_match, shallow_match_rev, ← runMatchF_eq, ← runMatchF_eq]
  decide

/-- C7 (amended): the final set is unchanged under the opposite sibling
order provided the traversal consults the accumulated result set in no
visited pair: no reachable pair is two equal-valued constants (the
constant-skip rule), and in `deep_match` with `power_as_atomic` no
reachable power pair has bases rendering differently with exponents
rendering equally (the base-pair dedup corner).  Without this proviso
the order can change the result. -/
theorem claim7_order_amended (paa : Bool) (e1 e2 : String) (t1 t2 : Expr)
    (h1 : parse e1 = some t1) (h2 : parse e2 = some t2) :
    (safePair .shallow paa t1 t2 = true →
      shallow_match e1 e2 paa = shallow_match_rev e1 e2 paa)
    ∧ (safePair .deep paa t1 t2 = true →
      deep_match e1 e2 paa = deep_match_rev e1 e2 paa) :=
  ⟨fun hs => runMatchO_ord_irrel .shallow paa e1 e2 t1 t2 h1 h2 hs,
    fun hs => runMatchO_ord_irrel .deep paa e1 e2 t1 t2 h1 h2 hs⟩

theorem claim7_order_amended_witness :
    shallow_match "a+b" "x+y" true = shallow_match_rev "a+b" "x+y" true
    ∧ deep_match "a+b" "x+y" true = deep_match_rev "a+b" "x+y" true :=
  ⟨(claim7_order_amended true "a+b" "x+y"
      (.binOp .add (.name "a") (.name "b")) (.binOp .add (.name "x") (.name "y"))
      (by decide) (by decide)).1 (by decide),
    (claim7_order_amended true "a+b" "x+y"
      (.binOp .add (.name "a") (.name "b")) (.binOp .add (.name "x") (.name "y"))
      (by decide) (by decide)).2 (by decide)⟩

/-- C8 (counterexample): the claim states that when the base pair
selected by the comparison rule is already present, nothing else is
added in its place (the step would leave the result set unchanged).  On
`x = p ** t`, `y = q ** t` with `("p", "q")` already present, the code
adds the whole rendered pair `("p ** t", "q ** t")` instead. -/
theorem claim8_counterexample :
    matchLoop .deep true
      [(.binOp .pow (.name "p") (.name "t"), .binOp .pow (.name "q") (.name "t"))]
      {("p", "q")}
    ≠ matchLoop .deep true [] {("p", "q")} := by
  rw [matchLoop, matchLoop,
    ← matchLoopF_eq false .deep true _ _ _ (Nat.lt_succ_self _),
    ← matchLoopF_eq false .deep true _ _ _ (Nat.lt_succ_self _)]
  decide

/-- C8 (amended): in `deep_match` with `power_as_atomic` true, when the
pair selected by the base/exponent comparison rule is already present in
the result set: for the exponent pair (bases rendering equally) the
emission is indeed simply suppressed and nothing else is added; for the
base pair (bases differing, exponents rendering equally) the whole
rendered pair `(render(x), render(y))` is added in its place. -/
theorem claim8_deep_dedup_amended (xl xr yl yr : Expr)
    (rest : List (Expr × Expr)) (r : Finset (String × String)) :
    (unparse xl = unparse yl → unparse xr ≠ unparse yr →
        (unparse xr, unparse yr) ∈ r →
      matchLoop .deep true ((.binOp .pow xl xr, .binOp .pow yl yr) :: rest) r
        = matchLoop .deep true rest r)
    ∧ (unparse xl ≠ unparse yl → unparse xr = unparse yr →
        (unparse xl, unparse yl) ∈ r →
      matchLoop .deep true ((.binOp .pow xl xr, .binOp .pow yl yr) :: rest) r
        = matchLoop .deep true rest
            (insert (unparse (.binOp .pow xl xr), unparse (.binOp .pow yl yr)) r)) := by
  constructor
  · intro hb hp hm
    rw [matchLoop, step_pow_deep, if_pos hb, if_neg (by tauto)]
    rfl
  · intro hb hp hm
    rw [matchLoop, step_pow_deep, if_neg hb, if_neg (by tauto)]
    rfl

theorem claim8_deep_dedup_witness :
    matchLoop .deep true
      [(.binOp .pow (.name "s") (.name "u"), .binOp .pow (.name "s") (.name "v"))]
      {("u", "v")}
      = matchLoop .deep true [] {("u", "v")}
    ∧ matchLoop .deep true
      [(.binOp .pow (.name "u") (.name "s"), .binOp .pow (.name "v") (.name "s"))]
      {("u", "v")}
      = matchLoop .deep true []
          (insert (unparse (Expr.binOp .pow (.name "u") (.name "s")),
            unparse (Expr.binOp .pow (.name "v") (.name "s"))) {("u", "v")}) :=
  ⟨(claim8_deep_dedup_amended (.name "s") (.name "u") (.name "s") (.name "v") []
      {("u", "v")}).1 (by decide) (by decide) (by decide),
    (claim8_deep_dedup_amended (.name "u") (.name "s") (.name "v") (.name "s") []
      {("u", "v")}).2 (by decide) (by decide) (by decide)⟩

/-- C9: with `power_as_atomic = false`, `shallow_match` and `deep_match`
return equal result sets on every pair of input strings: both policies
descend into matched power nodes normally. -/
theorem claim9_policy_agreement (e1 e2 : String) :
    shallow_match e1 e2 false = deep_match e1 e2 false :=
  runMatchO_policy_eq false e1 e2

/-- C10: matching any expression against itself, with either policy and
either flag value, only produces pairs whose two components are equal. -/
theorem claim10_self_match_reflexive (paa : Bool) (e : String) (q : String × String) :
    (q ∈ shallow_match e e paa → q.1 = q.2)
    ∧ (q ∈ deep_match e e paa → q.1 = q.2) :=
  ⟨fun h => runMatchO_diag false .shallow paa e q h,
    fun h => runMatchO_diag false .deep paa e q h⟩

theorem claim10_self_match_reflexive_witness :
    ("a", "a") ∈ shallow_match "a+b" "a+b" true
    ∧ (("a", "a") : String × String).1 = (("a", "a") : String × String).2 :=
  ⟨by rw [shallow_match, ← runMatchF_eq]; decide,
    (claim10_self_match_reflexive true "a+b" ("a", "a")).1
      (by rw [shallow_match, ← runMatchF_eq]; decide)⟩

end XMatch

